import Mathlib

/-
Verification of the hono-ai-chat service core logic.

Shallow embedding notes:
- JavaScript numbers (Date.now timestamps, counters, limits) are modelled as Int.
- Strings are modelled as Lean String / List Char; the JS regular expressions of
  the source are hand-translated into executable character-list scanners with the
  same matching semantics (left-to-right, non-overlapping global replacement).
- The in-memory maps (rate-limit store, KV namespace) are association lists.
-/

set_option maxRecDepth 10000

/-! ## Rate limiter (src/middleware/rateLimit.ts) -/

/-- One entry of the rate limiter's in-memory store. -/
structure RateEntry where
  count : Int
  resetAt : Int
deriving DecidableEq, Repr

/-- State of `RateLimiter`: configured limit, window in milliseconds, store. -/
structure RateLimiter where
  limit : Int
  windowMs : Int
  store : List (String × RateEntry)
deriving DecidableEq, Repr

/-- Lookup `this.store[identifier]`. -/
def lookupEntry (st : List (String × RateEntry)) (id : String) : Option RateEntry :=
  (st.find? (fun p => p.1 == id)).map Prod.snd

/-- Assignment `this.store[identifier] = e`. -/
def setEntry (st : List (String × RateEntry)) (id : String) (e : RateEntry) :
    List (String × RateEntry) :=
  (id, e) :: st.filter (fun p => !(p.1 == id))

/-- The record returned by `RateLimiter.check`. -/
structure RateCheckResult where
  allowed : Bool
  remaining : Int
  resetAt : Int
deriving DecidableEq, Repr

/-- `new RateLimiter(limit, windowSeconds)`: `windowMs = windowSeconds * 1000`,
empty store. -/
def mkRateLimiter (limit windowSeconds : Int) : RateLimiter :=
  { limit := limit, windowMs := windowSeconds * 1000, store := [] }

/-- `RateLimiter.check(identifier)`, with the current time passed explicitly. -/
def RateLimiter.check (rl : RateLimiter) (now : Int) (identifier : String) :
    RateCheckResult × RateLimiter :=
  match lookupEntry rl.store identifier with
  | none =>
      (⟨true, rl.limit - 1, now + rl.windowMs⟩,
       { rl with store := setEntry rl.store identifier ⟨1, now + rl.windowMs⟩ })
  | some entry =>
      if now > entry.resetAt then
        (⟨true, rl.limit - 1, now + rl.windowMs⟩,
         { rl with store := setEntry rl.store identifier ⟨1, now + rl.windowMs⟩ })
      else
        (⟨decide (entry.count + 1 ≤ rl.limit), max 0 (rl.limit - (entry.count + 1)),
           entry.resetAt⟩,
         { rl with store := setEntry rl.store identifier ⟨entry.count + 1, entry.resetAt⟩ })

/-- Iterate `check` `n` times at time `now` for the same identifier, keeping the
final limiter state. -/
def RateLimiter.checkTimes (rl : RateLimiter) (now : Int) (id : String) : Nat → RateLimiter
  | 0 => rl
  | n + 1 => ((rl.checkTimes now id n).check now id).2

/-! ## Character and substring helpers

The JS regular expressions of the source are hand-translated into executable
character-list scanners.  `\w` is `[A-Za-z0-9_]`, `\s` covers ASCII whitespace,
and case-insensitive matching lowercases ASCII letters (the source strings are
ASCII, so this matches `String.prototype.toLowerCase`). -/

/-- ASCII lowercasing, as `toLowerCase` acts on ASCII input. -/
def asciiLower (c : Char) : Char :=
  if 'A' ≤ c ∧ c ≤ 'Z' then Char.ofNat (c.toNat + 32) else c

/-- The regex class `\w`. -/
def isWordChar (c : Char) : Bool :=
  c.isAlphanum || c == '_'

/-- The regex class `\s` (ASCII part). -/
def isSpaceChar (c : Char) : Bool :=
  c == ' ' || c == '\t' || c == '\n' || c == '\r' || c == '\x0b' || c == '\x0c'

/-- Case-sensitive "the pattern `p` occurs at the head of `s`". -/
def startsWithL : List Char → List Char → Bool
  | [], _ => true
  | _ :: _, [] => false
  | a :: p, b :: s => (a == b) && startsWithL p s

/-- Case-insensitive variant of `startsWithL`. -/
def startsWithCI : List Char → List Char → Bool
  | [], _ => true
  | _ :: _, [] => false
  | a :: p, b :: s => (asciiLower a == asciiLower b) && startsWithCI p s

/-- `String.prototype.includes`: `p` occurs somewhere in `s`. -/
def hasSub (p : List Char) : List Char → Bool
  | [] => p.isEmpty
  | a :: r => startsWithL p (a :: r) || hasSub p r

/-- Case-insensitive substring occurrence. -/
def hasSubCI (p : List Char) : List Char → Bool
  | [] => p.isEmpty
  | a :: r => startsWithCI p (a :: r) || hasSubCI p r

/-- Everything after the first case-insensitive occurrence of `p`, if any. -/
def dropAfterCI (p : List Char) : List Char → Option (List Char)
  | [] => if p.isEmpty then some [] else none
  | a :: r => if startsWithCI p (a :: r) then some ((a :: r).drop p.length)
              else dropAfterCI p r

/-- `String.prototype.trim` (ASCII whitespace). -/
def trimL (s : List Char) : List Char :=
  ((s.dropWhile isSpaceChar).reverse.dropWhile isSpaceChar).reverse

/-- ASCII-lowercase a whole string (`toLowerCase`). -/
def lowerL (s : List Char) : List Char := s.map asciiLower

/-- The backtick character (extracted from a string literal). -/
def btick : Char :=
  match "`".data with
  | c :: _ => c
  | [] => ' '

/-! ## Global regex replacement

`gsub` models `String.prototype.replace` with a `g`-flagged regex: scan left to
right; at each position try the matcher; on success emit the replacement and
resume after the match, otherwise keep one character and move on.  Every
matcher below consumes at least one character on success, so fuel equal to the
string length is always sufficient; with fuel 0 the rest is kept unchanged. -/

def gsub (m : List Char → Option (List Char × List Char)) : Nat → List Char → List Char
  | _, [] => []
  | 0, s => s
  | fuel + 1, a :: rest =>
    match m (a :: rest) with
    | some (repl, remaining) => repl ++ gsub m fuel remaining
    | none => a :: gsub m fuel rest

/-- Run a global replacement over a whole string. -/
def gsubAll (m : List Char → Option (List Char × List Char)) (s : List Char) : List Char :=
  gsub m s.length s

/-! ## ContextService.sanitizeCode and GroqService.sanitizeResponse

The block-stripping regexes `<script\b[^<]*(?:(?!<\/script>)<[^<]*)*<\/script>`
(and the `iframe` twin, both `gi`) match a case-insensitive `<tag` with a word
boundary after the tag name, and then run to the first case-insensitive
occurrence of the closing tag; they fail if no closing tag follows. -/

/-- Matcher for one `<open ... close>` block, replaced by `repl`. -/
def matchStripAt (openT closeT repl : List Char) (s : List Char) :
    Option (List Char × List Char) :=
  if startsWithCI openT s then
    let r := s.drop openT.length
    match r with
    | c :: _ =>
      if isWordChar c then none
      else match dropAfterCI closeT r with
        | some rest => some (repl, rest)
        | none => none
    | [] => none
  else none

/-- Matcher for the inline-event regex `on\w+="[^"]*"` (flag `gi`). -/
def matchOnAttrAt (s : List Char) : Option (List Char × List Char) :=
  if startsWithCI "on".data s then
    let r := s.drop 2
    let w := r.takeWhile isWordChar
    if w.isEmpty then none
    else match r.drop w.length with
      | '=' :: '"' :: r2 =>
        let content := r2.takeWhile (fun c => !(c == '"'))
        (match r2.drop content.length with
         | '"' :: rest => some ([], rest)
         | _ => none)
      | _ => none
  else none

/-- Replacement marker for stripped script blocks. -/
def removedScript : List Char := "[REMOVED: script tag]".data

/-- Replacement marker for stripped iframe blocks. -/
def removedIframe : List Char := "[REMOVED: iframe tag]".data

/-- `ContextService.sanitizeCode`. -/
def sanitizeCodeL (s : List Char) : List Char :=
  trimL (gsubAll (matchStripAt "<iframe".data "</iframe>".data removedIframe)
        (gsubAll (matchStripAt "<script".data "</script>".data removedScript) s))

/-- `GroqService.sanitizeResponse`. -/
def sanitizeResponseL (s : List Char) : List Char :=
  trimL (gsubAll matchOnAttrAt
        (gsubAll (matchStripAt "<iframe".data "</iframe>".data [])
        (gsubAll (matchStripAt "<script".data "</script>".data []) s)))

/-- String-level `ContextService.sanitizeCode`. -/
def sanitizeCode (s : String) : String := ⟨sanitizeCodeL s.data⟩

/-- String-level `GroqService.sanitizeResponse`. -/
def sanitizeResponse (s : String) : String := ⟨sanitizeResponseL s.data⟩

/-! ## GroqService.formatReview -/

/-- `GroqService.escapeHtml` on one character. -/
def escCharL (c : Char) : List Char :=
  if c == '&' then "&amp;".data
  else if c == '<' then "&lt;".data
  else if c == '>' then "&gt;".data
  else if c == '"' then "&quot;".data
  else if c == '\'' then "&#039;".data
  else [c]

/-- `GroqService.escapeHtml`. -/
def escapeHtmlL (s : List Char) : List Char :=
  (s.map escCharL).flatten

/-- The fence marker (three backticks). -/
def fenceOpen : List Char := [btick, btick, btick]

/-- Split a fenced block's body at the first closing fence. -/
def splitFence : List Char → Option (List Char × List Char)
  | [] => none
  | a :: r =>
    if startsWithL fenceOpen (a :: r) then some ([], (a :: r).drop 3)
    else match splitFence r with
      | some (content, rest) => some (a :: content, rest)
      | none => none

/-- `lang || 'text'` of the replacement callback. -/
def codeLangOf (lang : List Char) : List Char :=
  if lang.isEmpty then "text".data else lang

/-- Matcher for the fenced-block regex with its replacement callback:
`<pre><code class="language-LANG">` around `escapeHtml(code.trim())`. -/
def matchFenceAt (s : List Char) : Option (List Char × List Char) :=
  if startsWithL fenceOpen s then
    let r := s.drop 3
    let lang := r.takeWhile isWordChar
    match r.drop lang.length with
    | '\n' :: body =>
      (match splitFence body with
       | some (content, rest) =>
         some ("<pre><code class=\"language-".data ++ codeLangOf lang ++ "\">".data
               ++ escapeHtmlL (trimL content) ++ "</code></pre>".data, rest)
       | none => none)
    | _ => none
  else none

/-- Matcher for the inline-code regex (backtick, one or more non-backticks,
backtick), replaced by a `code` element. -/
def matchInlineAt (s : List Char) : Option (List Char × List Char) :=
  match s with
  | [] => none
  | a :: r =>
    if a == btick then
      let content := r.takeWhile (fun c => !(c == btick))
      if content.isEmpty then none
      else match r.drop content.length with
        | b :: rest =>
          if b == btick then some ("<code>".data ++ content ++ "</code>".data, rest)
          else none
        | [] => none
    else none

/-- Matcher for the bold regex `\*\*([^*]+)\*\*`. -/
def matchBoldAt (s : List Char) : Option (List Char × List Char) :=
  if startsWithL "**".data s then
    let r := s.drop 2
    let content := r.takeWhile (fun c => !(c == '*'))
    if content.isEmpty then none
    else
      if startsWithL "**".data (r.drop content.length) then
        some ("<strong>".data ++ content ++ "</strong>".data, (r.drop content.length).drop 2)
      else none
  else none

/-- Matcher for the italic regex `\*([^*]+)\*`. -/
def matchItalicAt (s : List Char) : Option (List Char × List Char) :=
  if startsWithL "*".data s then
    let r := s.drop 1
    let content := r.takeWhile (fun c => !(c == '*'))
    if content.isEmpty then none
    else
      if startsWithL "*".data (r.drop content.length) then
        some ("<em>".data ++ content ++ "</em>".data, (r.drop content.length).drop 1)
      else none
  else none

/-- `GroqService.formatReview`: the four markdown rewrites, then
`sanitizeResponse`. -/
def formatReviewL (s : List Char) : List Char :=
  sanitizeResponseL
    (gsubAll matchItalicAt
      (gsubAll matchBoldAt
        (gsubAll matchInlineAt
          (gsubAll matchFenceAt s))))

/-- String-level `GroqService.formatReview`. -/
def formatReview (s : String) : String := ⟨formatReviewL s.data⟩

/-! ## ContextService.extractSeverity -/

/-- The severity labels. -/
inductive Severity
  | info
  | warning
  | critical
deriving DecidableEq, Repr

/-- `ContextService.extractSeverity`. -/
def extractSeverity (response : List Char) : Severity :=
  let lower := lowerL response
  if hasSub "critical".data lower || hasSub "security vulnerability".data lower ||
     hasSub "sql injection".data lower || hasSub "xss".data lower then
    Severity.critical
  else if hasSub "warning".data lower || hasSub "bug".data lower ||
          hasSub "issue".data lower then
    Severity.warning
  else Severity.info

/-! ## ContextService.isCode

Each regex of the classifier becomes one boolean scanner.  Word-boundary
checks (`\b`) compare the neighbouring characters against `\w`; all keyword
patterns start and end with word characters, so a boundary holds exactly when
the neighbour is absent or a non-word character. -/

/-- Boundary before a keyword: start of input or a non-word character. -/
def boundaryB : Option Char → Bool
  | none => true
  | some c => !(isWordChar c)

/-- Boundary after a keyword: end of input or a non-word character. -/
def boundaryA : List Char → Bool
  | [] => true
  | c :: _ => !(isWordChar c)

/-- Scan for any of `kws` delimited by word boundaries (case-sensitive);
`prev` is the character before the scan position. -/
def hasWordIn (kws : List (List Char)) : Option Char → List Char → Bool
  | _, [] => false
  | prev, a :: r =>
    (boundaryB prev &&
      kws.any (fun kw => startsWithL kw (a :: r) && boundaryA ((a :: r).drop kw.length)))
    || hasWordIn kws (some a) r

/-- Case-insensitive variant of `hasWordIn`. -/
def hasWordInCI (kws : List (List Char)) : Option Char → List Char → Bool
  | _, [] => false
  | prev, a :: r =>
    (boundaryB prev &&
      kws.any (fun kw => startsWithCI kw (a :: r) && boundaryA ((a :: r).drop kw.length)))
    || hasWordInCI kws (some a) r

/-- First keywords of the strong SQL pattern. -/
def sqlFirstKws : List (List Char) :=
  ["select".data, "insert".data, "update".data, "delete".data]

/-- Second keywords of the strong SQL pattern. -/
def sqlSecondKws : List (List Char) :=
  ["from".data, "into".data, "set".data, "where".data]

/-- Strong pattern 1: `\b(SELECT|INSERT|UPDATE|DELETE)\b[\s\S]*\b(FROM|INTO|SET|WHERE)\b`
(flag `i`). -/
def hasSqlShape : Option Char → List Char → Bool
  | _, [] => false
  | prev, a :: r =>
    (boundaryB prev &&
      sqlFirstKws.any (fun kw =>
        startsWithCI kw (a :: r) && boundaryA ((a :: r).drop kw.length) &&
        hasWordInCI sqlSecondKws (((a :: r).take kw.length).getLast?) ((a :: r).drop kw.length)))
    || hasSqlShape (some a) r

/-- Tail `\s+\w+\s*\(` of the function-declaration pattern. -/
def checkFnTail (r : List Char) : Bool :=
  let sp := r.takeWhile isSpaceChar
  !sp.isEmpty &&
  (let r1 := r.drop sp.length
   let w := r1.takeWhile isWordChar
   !w.isEmpty &&
   (match (r1.drop w.length).dropWhile isSpaceChar with
    | '(' :: _ => true
    | _ => false))

/-- Head alternation `(function|def|async\s+function)` followed by the tail. -/
def fnHeadTail (s : List Char) : Bool :=
  (startsWithL "function".data s && checkFnTail (s.drop 8)) ||
  (startsWithL "def".data s && checkFnTail (s.drop 3)) ||
  (startsWithL "async".data s &&
    (let r := s.drop 5
     let sp := r.takeWhile isSpaceChar
     !sp.isEmpty && startsWithL "function".data (r.drop sp.length) &&
     checkFnTail ((r.drop sp.length).drop 8)))

/-- Strong pattern 2: `\b(function|def|async\s+function)\s+\w+\s*\(`. -/
def hasFnDecl : Option Char → List Char → Bool
  | _, [] => false
  | prev, a :: r =>
    (boundaryB prev && fnHeadTail (a :: r)) || hasFnDecl (some a) r

/-- Closing-tag search `<\/\w+>` anywhere in the input. -/
def hasCloseTag : List Char → Bool
  | [] => false
  | a :: r =>
    (a == '<' &&
      (match r with
       | '/' :: r2 =>
         (let w := r2.takeWhile isWordChar
          !w.isEmpty &&
          (match r2.drop w.length with
           | '>' :: _ => true
           | _ => false))
       | _ => false))
    || hasCloseTag r

/-- Strong pattern 3: `<\w+[^>]*>[\s\S]*<\/\w+>`. -/
def hasTagPair : List Char → Bool
  | [] => false
  | a :: r =>
    (a == '<' &&
      (let w := r.takeWhile isWordChar
       !w.isEmpty &&
       (match (r.drop w.length).dropWhile (fun c => !(c == '>')) with
        | '>' :: r2 => hasCloseTag r2
        | _ => false)))
    || hasTagPair r

/-- The strong indicators, in source order. -/
def strongIndicators : List (List Char → Bool) :=
  [fun s => hasSqlShape none s, fun s => hasFnDecl none s, hasTagPair]

/-- Language keywords of weak indicator 1. -/
def jsKeywords : List (List Char) :=
  ["function".data, "const".data, "let".data, "var".data, "class".data,
   "import".data, "export".data, "return".data, "if".data, "else".data,
   "for".data, "while".data, "switch".data, "case".data]

/-- Punctuation class `[{}\[\]();]` of weak indicator 2. -/
def punctChars : List Char := "\x7b\x7d[]();".data

/-- Weak indicator 3: `\w+\s*=\s*[\w"'`]`, continuation after the word char. -/
def checkAssignTail (r : List Char) : Bool :=
  match r.dropWhile isSpaceChar with
  | '=' :: r2 =>
    (match r2.dropWhile isSpaceChar with
     | c :: _ => isWordChar c || c == '"' || c == '\'' || c == btick
     | [] => false)
  | _ => false

/-- Weak indicator 3: scan for an assignment expression. -/
def hasAssign : List Char → Bool
  | [] => false
  | a :: r => (isWordChar a && checkAssignTail r) || hasAssign r

/-- Weak indicator 5: `\w+\.\w+\(`, continuation after the word char. -/
def checkDotCall (r : List Char) : Bool :=
  match r with
  | '.' :: r2 =>
    let w := r2.takeWhile isWordChar
    !w.isEmpty &&
    (match r2.drop w.length with
     | '(' :: _ => true
     | _ => false)
  | _ => false

/-- Weak indicator 5: scan for a method call. -/
def hasMethodCall : List Char → Bool
  | [] => false
  | a :: r => (isWordChar a && checkDotCall r) || hasMethodCall r

/-- Type names of weak indicator 6. -/
def typeKws : List (List Char) :=
  ["string".data, "number".data, "boolean".data, "any".data, "void".data, "Array".data]

/-- Weak indicator 6: `:\s*(string|number|boolean|any|void|Array)`. -/
def hasTypeAnn : List Char → Bool
  | [] => false
  | a :: r =>
    (a == ':' &&
      (let r1 := r.dropWhile isSpaceChar
       typeKws.any (fun kw => startsWithL kw r1)))
    || hasTypeAnn r

/-- Body of weak indicator 7 after the `<`: optional `/`, an ASCII letter,
then a later `>`. -/
def looseTagBody (r : List Char) : Bool :=
  match (match r with | '/' :: r2 => r2 | _ => r) with
  | c :: r2 => c.isAlpha && r2.contains '>'
  | [] => false

/-- Weak indicator 7: `<\/?[a-z][\s\S]*>` (flag `i`). -/
def hasLooseTag : List Char → Bool
  | [] => false
  | a :: r => (a == '<' && looseTagBody r) || hasLooseTag r

/-- SQL keywords of weak indicator 8. -/
def sqlWeakKws : List (List Char) :=
  ["select".data, "insert".data, "update".data, "delete".data, "from".data,
   "where".data, "join".data, "limit".data, "order by".data]

/-- Weak indicator 9: `#` followed by whitespace. -/
def hasHashWs : List Char → Bool
  | a :: b :: r => (a == '#' && isSpaceChar b) || hasHashWs (b :: r)
  | _ => false

/-- Weak indicator 9: `\/\/|\/\*|\*\/|#\s`. -/
def hasComment (s : List Char) : Bool :=
  hasSub "//".data s || hasSub "/*".data s || hasSub "*/".data s || hasHashWs s

/-- The weak indicators, in source order. -/
def weakIndicators : List (List Char → Bool) :=
  [fun s => hasWordIn jsKeywords none s,
   fun s => s.any (fun c => punctChars.contains c),
   hasAssign,
   fun s => hasSub "=>".data s,
   hasMethodCall,
   hasTypeAnn,
   hasLooseTag,
   fun s => hasWordInCI sqlWeakKws none s,
   hasComment]

/-- Number of weak indicators matching the (already trimmed) text. -/
def weakCount (t : List Char) : Nat :=
  weakIndicators.countP (fun f => f t)

/-- `ContextService.isCode`, translated clause by clause from the source. -/
def isCodeL (input : List Char) : Bool :=
  let trimmed := trimL input
  if startsWithL fenceOpen trimmed || hasSub fenceOpen trimmed then true
  else if strongIndicators.any (fun f => f trimmed) then true
  else
    let m := weakCount trimmed
    if trimmed.length < 50 && m < 2 then false
    else decide (m ≥ 2)

/-- String-level `ContextService.isCode`. -/
def isCode (s : String) : Bool := isCodeL s.data

/-- C2 spec-side classifier, written from the claim's wording: code iff the
trimmed text contains a fence marker, or matches a strong pattern, or — with
`m` weak indicators matching — is not (shorter than 50 with `m < 2`) and has
`m ≥ 2`. -/
def isCodeSpec (input : List Char) : Bool :=
  let t := trimL input
  let m := weakCount t
  if hasSub fenceOpen t then true
  else if strongIndicators.any (fun f => f t) then true
  else if t.length < 50 && m < 2 then false
  else decide (m ≥ 2)

/-! ## Session service (services/session.ts) and orchestrator

Timestamps are milliseconds as `Int`.  The KV namespace is an association
list of key, stored session and absolute expiration time; `expirationTtl`
seconds on a put become an absolute expiry `now + ttl*1000`.  `safeJsonParse`
of a value the service itself serialized round-trips, so stored sessions are
kept structured.  UUID generation and the clock are injected parameters, and
the completion client is an injected total function from the message list to
the model's text (its own failure modes are out of scope here). -/

/-- Message roles. -/
inductive Role
  | system
  | user
  | assistant
deriving DecidableEq, Repr

/-- One chat message. -/
structure ChatMessage where
  role : Role
  content : String
deriving DecidableEq, Repr

/-- One chat session. -/
structure ChatSession where
  id : String
  messages : List ChatMessage
  created_at : Int
  updated_at : Int
  expires_at : Int
deriving DecidableEq, Repr

/-- The KV namespace: key, value, absolute expiration time. -/
abbrev KVStore := List (String × ChatSession × Int)

/-- KV read: an entry is visible strictly before its expiration. -/
def kvGet (now : Int) (st : KVStore) (key : String) : Option ChatSession :=
  match st.find? (fun e => e.1 == key) with
  | some (_, v, expAt) => if now < expAt then some v else none
  | none => none

/-- KV write with an absolute expiration time. -/
def kvPut (st : KVStore) (key : String) (v : ChatSession) (expAt : Int) : KVStore :=
  (key, v, expAt) :: st.filter (fun e => !(e.1 == key))

/-- `sessionTTL` (1 hour) in milliseconds. -/
def sessionTTLms : Int := 3600 * 1000

/-- `SessionService.createSession`. -/
def createSession (uuid : String) (now : Int) (kv : Option KVStore) :
    ChatSession × Option KVStore :=
  let session : ChatSession :=
    { id := uuid, messages := [], created_at := now, updated_at := now,
      expires_at := now + sessionTTLms }
  match kv with
  | some st => (session, some (kvPut st ("session:" ++ uuid) session (now + sessionTTLms)))
  | none => (session, none)

/-- The `SessionError` kinds thrown by `getSession`. -/
inductive SessionError
  | storeUnavailable
  | notFound (sessionId : String)
deriving DecidableEq, Repr

/-- `SessionService.getSession`. -/
def getSession (now : Int) (kv : Option KVStore) (sessionId : String) :
    Except SessionError ChatSession :=
  match kv with
  | none => Except.error SessionError.storeUnavailable
  | some st =>
    match kvGet now st ("session:" ++ sessionId) with
    | none => Except.error (SessionError.notFound sessionId)
    | some s => Except.ok s

/-- `SessionService.updateSession`: with no KV it returns before touching the
session; otherwise it refreshes `updated_at` and re-persists with a fresh TTL. -/
def updateSession (now : Int) (kv : Option KVStore) (s : ChatSession) :
    ChatSession × Option KVStore :=
  match kv with
  | none => (s, none)
  | some st =>
    let s' := { s with updated_at := now }
    (s', some (kvPut st ("session:" ++ s.id) s' (now + sessionTTLms)))

/-- The 10-message cap: `if (messages.length > 10) messages = messages.slice(-10)`. -/
def truncate10 (l : List ChatMessage) : List ChatMessage :=
  if l.length > 10 then l.drop (l.length - 10) else l

/-- `SessionService.addMessage`. -/
def addMessage (uuid : String) (now : Int) (kv : Option KVStore) (sessionId : String)
    (role : Role) (content : String) : ChatSession × Option KVStore :=
  let loaded :=
    match getSession now kv sessionId with
    | Except.ok s => (s, kv)
    | Except.error _ => createSession uuid now kv
  let s2 := { loaded.1 with messages := truncate10 (loaded.1.messages ++ [⟨role, content⟩]) }
  updateSession now loaded.2 s2

/-! ## Prompt builders (services/context.ts) -/

/-- The fixed review-guidelines template. -/
def guidelinesText : String :=
  "You are an expert code reviewer with deep knowledge of software engineering best practices.\n\nYOUR ROLE:\n- Analyze code for bugs, security vulnerabilities, and performance issues\n- Suggest improvements for code quality, readability, and maintainability\n- Provide constructive feedback following best practices\n- Explain your reasoning clearly and concisely\n\nREVIEW FOCUS AREAS:\n1. **Security**: SQL injection, XSS, CSRF, authentication, authorization, secrets in code\n2. **Bugs**: Logic errors, edge cases, null/undefined handling, type safety\n3. **Performance**: Algorithm complexity, memory leaks, unnecessary operations\n4. **Code Quality**: DRY, SOLID principles, naming conventions, code organization\n5. **Best Practices**: Error handling, logging, testing, documentation\n\nOUTPUT FORMAT:\nProvide your review in the following structure:\n\n**Severity**: [INFO / WARNING / CRITICAL]\n\n**Issues Found**:\n- Issue 1: [Description]\n- Issue 2: [Description]\n\n**Suggestions**:\n1. [Specific improvement with code example if applicable]\n2. [Another suggestion]\n\n**Positive Aspects** (if any):\n- [What's done well]\n\nKeep your response concise but actionable. Focus on the most important issues first."

/-- `ContextService.buildSystemPrompt`. -/
def buildSystemPrompt (language : Option String) : String :=
  match language with
  | some lang =>
    guidelinesText ++ "\nPROGRAMMING LANGUAGE: " ++ lang ++ "\nFocus on " ++ lang ++
      "-specific best practices and common pitfalls."
  | none => guidelinesText

/-- `ContextService.buildUserPrompt`. -/
def buildUserPrompt (code : String) (userContext : Option String) : String :=
  let contextNote :=
    match userContext with
    | some ctx => "\n\nADDITIONAL CONTEXT:\n" ++ ctx ++ "\n"
    | none => ""
  "Please review the following code:" ++ contextNote ++ "\n\n```\n" ++ code ++
    "\n```\n\nProvide a comprehensive code review focusing on security, bugs, performance, and best practices."

/-- `ContextService.buildChatSystemPrompt`. -/
def chatSystemPromptText : String :=
  "You are a helpful AI assistant that specializes in software development and programming.\n\nYOUR ROLE:\n- Answer questions about programming, software development, and technology\n- Provide explanations and guidance\n- Help with problem-solving and debugging concepts\n- Be friendly and conversational\n\nIMPORTANT:\n- If the user provides code snippets, you can discuss them, but don't automatically do a full code review unless specifically asked\n- Be concise and helpful\n- Use clear, simple language\n- Provide examples when helpful"

/-- `ContextService.buildChatUserPrompt`: identity passthrough. -/
def buildChatUserPrompt (message : String) : String := message

/-- `GroqService.reviewCode`'s message list: system prompt, previous turns,
current user prompt. -/
def reviewMessages (sys : String) (previous : List ChatMessage) (userText : String) :
    List ChatMessage :=
  ⟨Role.system, sys⟩ :: (previous ++ [⟨Role.user, userText⟩])

/-! ## Review orchestrator (SessionService.processCodeReview) -/

/-- The value returned by one review/chat turn. -/
structure ReviewOutcome where
  review : String
  severity : Severity
  sessionId : String
deriving DecidableEq, Repr

/-- `SessionService.processCodeReview`.  Returns the outcome, the KV state,
and the number of completion calls made (always 1 on this path). -/
def processCodeReview (ai : List ChatMessage → String) (uuid : String) (now : Int)
    (kv : Option KVStore) (sessionId : String) (code : String)
    (language : Option String) (userContext : Option String) :
    ReviewOutcome × Option KVStore × Nat :=
  let sanitized := sanitizeCode code
  let resolved :=
    match getSession now kv sessionId with
    | Except.ok s => (s, sessionId, kv)
    | Except.error _ =>
      let created := createSession uuid now kv
      (created.1, created.1.id, created.2)
  let session := resolved.1
  let previousMessages := session.messages.filter (fun m => !(m.role == Role.system))
  let turn :=
    if isCode sanitized then
      let sysPrompt := buildSystemPrompt language
      let userPrompt := buildUserPrompt sanitized userContext
      let review := sanitizeResponse (ai (reviewMessages sysPrompt previousMessages userPrompt))
      (userPrompt, review, extractSeverity review.data)
    else
      let sysPrompt := chatSystemPromptText
      let userPrompt := buildChatUserPrompt sanitized
      let review := sanitizeResponse (ai (reviewMessages sysPrompt previousMessages userPrompt))
      (userPrompt, review, Severity.info)
  let msgs := truncate10 (session.messages ++
    [⟨Role.user, turn.1⟩, ⟨Role.assistant, turn.2.1⟩])
  let persisted := updateSession now resolved.2.2 { session with messages := msgs }
  (⟨turn.2.1, turn.2.2, resolved.2.1⟩, persisted.2, 1)

/-! ## Route POST /api/chat/review (routes/chat.ts) -/

/-- The `code` field of the request body as received: absent, of a non-string
JSON type, or a string. -/
inductive CodeField
  | absent
  | notString
  | str (s : String)
deriving DecidableEq, Repr

/-- The request body fields the handler reads. -/
structure ReviewRequest where
  session_id : Option String
  code : CodeField
  language : Option String
  context : Option String

/-- The `ValidationError` kinds thrown by the handler. -/
inductive ValidationError
  | required
  | tooLong (maxLen : Int)
  | emptyCode
deriving DecidableEq, Repr

/-- The handler's validation sequence: `!code || typeof code !== 'string'`,
then the max-length check, then the trimmed-empty check. -/
def validateReviewBody (maxCodeLength : Int) (code : CodeField) :
    Except ValidationError String :=
  match code with
  | CodeField.absent => Except.error ValidationError.required
  | CodeField.notString => Except.error ValidationError.required
  | CodeField.str s =>
    if s = "" then Except.error ValidationError.required
    else if (s.length : Int) > maxCodeLength then
      Except.error (ValidationError.tooLong maxCodeLength)
    else if (trimL s.data).isEmpty then Except.error ValidationError.emptyCode
    else Except.ok s

/-- The whole `POST /api/chat/review` handler: validate, then resolve the
session id (`session_id || crypto.randomUUID()`) and run the review.  Returns
the response or error, the KV state, and the number of completion calls. -/
def handleReview (ai : List ChatMessage → String) (uuidRoute uuidSession : String)
    (now : Int) (kv : Option KVStore) (maxCodeLength : Int) (body : ReviewRequest) :
    Except ValidationError ReviewOutcome × Option KVStore × Nat :=
  match validateReviewBody maxCodeLength body.code with
  | Except.error e => (Except.error e, kv, 0)
  | Except.ok code =>
    let sessionId :=
      match body.session_id with
      | some sid => sid
      | none => uuidRoute
    let r := processCodeReview ai uuidSession now kv sessionId code body.language body.context
    (Except.ok r.1, r.2.1, r.2.2)

/-! ## Auxiliary executable predicates used in statements and proofs -/

/-- The critical keywords of the severity scan (spec side of C3). -/
def critKeywords : List (List Char) :=
  ["critical".data, "security vulnerability".data, "sql injection".data, "xss".data]

/-- The warning keywords of the severity scan (spec side of C3). -/
def warnKeywords : List (List Char) :=
  ["warning".data, "bug".data, "issue".data]

/-- Case-insensitive "the text contains one of the keywords". -/
def containsAnyCI (kws : List (List Char)) (s : List Char) : Bool :=
  kws.any (fun kw => hasSubCI kw s)

/-- Case-insensitive mismatch of pattern `p` strictly inside the prefix `q`:
when true, `p` cannot match at the start of `q ++ ys` for any `ys`. -/
def misCI : List Char → List Char → Bool
  | _, [] => false
  | [], _ :: _ => false
  | a :: p, b :: q => (asciiLower a != asciiLower b) || misCI p q

/-- Case-insensitive full match of pattern `p` inside the prefix `q`: when
true, `p` matches at the start of `q ++ ys` for every `ys`. -/
def hitCI : List Char → List Char → Bool
  | [], _ => true
  | _ :: _, [] => false
  | a :: p, b :: q => (asciiLower a == asciiLower b) && hitCI p q

/-- C1: fresh-entry branch, increment branch, the 6th check with N=5, W=60s
being denied, and the first check after `resetAt` elapsing being allowed with
`remaining = N-1`. -/
theorem rateLimiter_check_spec (rl : RateLimiter) (id : String) (now : Int) :
    (lookupEntry rl.store id = none →
      (rl.check now id).1 = ⟨true, rl.limit - 1, now + rl.windowMs⟩ ∧
      lookupEntry (rl.check now id).2.store id = some ⟨1, now + rl.windowMs⟩) ∧
    (∀ e, lookupEntry rl.store id = some e → now > e.resetAt →
      (rl.check now id).1 = ⟨true, rl.limit - 1, now + rl.windowMs⟩ ∧
      lookupEntry (rl.check now id).2.store id = some ⟨1, now + rl.windowMs⟩) ∧
    (∀ e, lookupEntry rl.store id = some e → ¬ now > e.resetAt →
      (rl.check now id).1 =
        ⟨decide (e.count + 1 ≤ rl.limit), max 0 (rl.limit - (e.count + 1)), e.resetAt⟩ ∧
      lookupEntry (rl.check now id).2.store id = some ⟨e.count + 1, e.resetAt⟩) ∧
    ((((mkRateLimiter 5 60).checkTimes now id 5).check now id).1.allowed = false) ∧
    (∀ later : Int, later > now + 60000 →
      (((mkRateLimiter 5 60).checkTimes now id 5).check later id).1 =
        ⟨true, 4, later + 60000⟩) := by
  have hlook : ∀ (e : RateEntry), lookupEntry [(id, e)] id = some e := by
    intro e
    simp [lookupEntry]
  have hset : ∀ (st : List (String × RateEntry)) (e : RateEntry),
      lookupEntry (setEntry st id e) id = some e := by
    intro st e
    simp [lookupEntry, setEntry]
  have hfive : (mkRateLimiter 5 60).checkTimes now id 5 =
      { limit := 5, windowMs := 60000, store := [(id, ⟨5, now + 60000⟩)] } := by
    have hno : ¬ (now > now + 60000) := by omega
    simp [RateLimiter.checkTimes, RateLimiter.check, mkRateLimiter, lookupEntry,
      setEntry, hno]
  refine ⟨?_, ?_, ?_, ?_, ?_⟩
  · intro h
    constructor
    · simp [RateLimiter.check, h]
    · simp [RateLimiter.check, h, hset]
  · intro e he hlt
    constructor
    · simp [RateLimiter.check, he, hlt]
    · simp [RateLimiter.check, he, hlt, hset]
  · intro e he hge
    constructor
    · simp [RateLimiter.check, he, hge]
    · simp [RateLimiter.check, he, hge, hset]
  · have hno : ¬ (now > now + 60000) := by omega
    rw [hfive]
    simp [RateLimiter.check, lookupEntry, hno]
  · intro later hlater
    have hyes : later > now + 60000 := hlater
    rw [hfive]
    simp [RateLimiter.check, lookupEntry, hyes]

/-- C1 witness: concrete first check from an empty store. -/
theorem rateLimiter_check_spec_witness :
    ((mkRateLimiter 5 60).check 1000 "ip").1 = ⟨true, 4, 61000⟩ := by
  have h := ((rateLimiter_check_spec (mkRateLimiter 5 60) "ip" 1000).1 rfl).1
  rw [h]
  norm_num [mkRateLimiter]

/-- A match at the head is in particular a substring occurrence. -/
theorem hasSub_of_starts (p s : List Char) (h : startsWithL p s = true) :
    hasSub p s = true := by
  cases s with
  | nil =>
    cases p with
    | nil => rfl
    | cons a t => simp [startsWithL] at h
  | cons a r => simp [hasSub, h]

/-- C2: `isCode` agrees with the claim's decision procedure: fence marker or
strong pattern classify as code immediately; otherwise a trimmed text shorter
than 50 characters with fewer than 2 weak indicators is not code, and
otherwise the text is code iff at least 2 weak indicators match. -/
theorem isCode_decision_spec (s : List Char) : isCodeL s = isCodeSpec s := by
  unfold isCodeL isCodeSpec
  cases h : startsWithL fenceOpen (trimL s) with
  | false => simp [h]
  | true => simp [h, hasSub_of_starts _ _ h]

/-- Case-insensitive prefix matching is prefix matching of the lowercasings. -/
theorem startsWithCI_eq_lower (p : List Char) :
    ∀ s, startsWithCI p s = startsWithL (lowerL p) (lowerL s) := by
  induction p with
  | nil => intro s; cases s <;> simp [startsWithCI, startsWithL, lowerL]
  | cons a p ih =>
    intro s
    cases s with
    | nil => simp [startsWithCI, startsWithL, lowerL]
    | cons b r => simp [startsWithCI, startsWithL, lowerL, ih]

/-- Case-insensitive substring occurrence is occurrence in the lowercasings. -/
theorem hasSubCI_eq_lower (p s : List Char) :
    hasSubCI p s = hasSub (lowerL p) (lowerL s) := by
  induction s with
  | nil => cases p <;> simp [hasSubCI, hasSub, lowerL]
  | cons b r ih => simp [hasSubCI, hasSub, lowerL, startsWithCI_eq_lower, ih]

/-- C3: `extractSeverity` is a case-insensitive scan where any critical
keyword forces `critical` (taking precedence over the warning keywords), any
warning keyword without a critical one gives `warning`, and otherwise the
result is `info`. -/
theorem extractSeverity_spec (s : List Char) :
    (containsAnyCI critKeywords s = true → extractSeverity s = Severity.critical) ∧
    (containsAnyCI critKeywords s = false → containsAnyCI warnKeywords s = true →
      extractSeverity s = Severity.warning) ∧
    (containsAnyCI critKeywords s = false → containsAnyCI warnKeywords s = false →
      extractSeverity s = Severity.info) := by
  have l1 : lowerL "critical".data = "critical".data := by decide
  have l2 : lowerL "security vulnerability".data = "security vulnerability".data := by decide
  have l3 : lowerL "sql injection".data = "sql injection".data := by decide
  have l4 : lowerL "xss".data = "xss".data := by decide
  have l5 : lowerL "warning".data = "warning".data := by decide
  have l6 : lowerL "bug".data = "bug".data := by decide
  have l7 : lowerL "issue".data = "issue".data := by decide
  have hc : containsAnyCI critKeywords s =
      (hasSub "critical".data (lowerL s) ||
       (hasSub "security vulnerability".data (lowerL s) ||
        (hasSub "sql injection".data (lowerL s) || hasSub "xss".data (lowerL s)))) := by
    simp [containsAnyCI, critKeywords, hasSubCI_eq_lower, l1, l2, l3, l4]
  have hw : containsAnyCI warnKeywords s =
      (hasSub "warning".data (lowerL s) ||
       (hasSub "bug".data (lowerL s) || hasSub "issue".data (lowerL s))) := by
    simp [containsAnyCI, warnKeywords, hasSubCI_eq_lower, l5, l6, l7]
  refine ⟨?_, ?_, ?_⟩
  · intro h
    rw [hc] at h
    simp only [extractSeverity]
    simp only [Bool.or_assoc] at h ⊢
    rw [if_pos h]
  · intro h h2
    rw [hc] at h
    rw [hw] at h2
    simp only [extractSeverity]
    simp only [Bool.or_assoc] at h h2 ⊢
    rw [if_neg (by simp [h]), if_pos h2]
  · intro h h2
    rw [hc] at h
    rw [hw] at h2
    simp only [extractSeverity]
    simp only [Bool.or_assoc] at h h2 ⊢
    rw [if_neg (by simp [h]), if_neg (by simp [h2])]

/-- C3 witness: a text with both a critical keyword and "warning" is
`critical`; a warning-only text is `warning`; plain text is `info`. -/
theorem extractSeverity_spec_witness :
    extractSeverity "SQL injection found, with a warning too".data = Severity.critical ∧
    extractSeverity "warning: unused var".data = Severity.warning ∧
    extractSeverity "all good".data = Severity.info :=
  ⟨(extractSeverity_spec "SQL injection found, with a warning too".data).1 (by decide),
   (extractSeverity_spec "warning: unused var".data).2.1 (by decide) (by decide),
   (extractSeverity_spec "all good".data).2.2 (by decide) (by decide)⟩

/-- C10: `updateSession` (with a backing store) rewrites only `updated_at`:
id, messages, creation and expiry timestamps are persisted unchanged, while
the store entry gets a fresh TTL window; `expires_at` itself is fixed at
creation time. -/
theorem updateSession_frame_spec (now : Int) (st : KVStore) (s : ChatSession) :
    ((updateSession now (some st) s).1.id = s.id ∧
     (updateSession now (some st) s).1.messages = s.messages ∧
     (updateSession now (some st) s).1.created_at = s.created_at ∧
     (updateSession now (some st) s).1.expires_at = s.expires_at ∧
     (updateSession now (some st) s).1.updated_at = now) ∧
    (updateSession now (some st) s).2 =
      some (kvPut st ("session:" ++ s.id) (updateSession now (some st) s).1
        (now + sessionTTLms)) ∧
    (∀ (uuid : String) (kv : Option KVStore),
      (createSession uuid now kv).1.expires_at = now + sessionTTLms) := by
  refine ⟨⟨rfl, rfl, rfl, rfl, rfl⟩, rfl, ?_⟩
  intro uuid kv
  cases kv <;> rfl

/-- C6: a direct `getSession` fails with a `SessionError` when the backing
store is absent or the entry is missing/expired, while `processCodeReview`
recovers any lookup failure by creating a fresh session whose id is returned;
a successful lookup keeps the caller's session id. -/
theorem session_recovery_spec :
    (∀ (now : Int) (sid : String),
      getSession now none sid = Except.error SessionError.storeUnavailable) ∧
    (∀ (now : Int) (st : KVStore) (sid : String),
      kvGet now st ("session:" ++ sid) = none →
      getSession now (some st) sid = Except.error (SessionError.notFound sid)) ∧
    (∀ (ai : List ChatMessage → String) (uuid : String) (now : Int)
       (kv : Option KVStore) (sid code : String) (lang ctx : Option String)
       (e : SessionError),
      getSession now kv sid = Except.error e →
      (processCodeReview ai uuid now kv sid code lang ctx).1.sessionId = uuid) ∧
    (∀ (ai : List ChatMessage → String) (uuid : String) (now : Int)
       (kv : Option KVStore) (sid code : String) (lang ctx : Option String)
       (s : ChatSession),
      getSession now kv sid = Except.ok s →
      (processCodeReview ai uuid now kv sid code lang ctx).1.sessionId = sid) := by
  refine ⟨fun now sid => rfl, ?_, ?_, ?_⟩
  · intro now st sid h
    simp [getSession, h]
  · intro ai uuid now kv sid code lang ctx e h
    cases kv <;> simp [processCodeReview, h, createSession]
  · intro ai uuid now kv sid code lang ctx s h
    simp [processCodeReview, h]

/-- C6 witness: with no backing store the direct lookup errors, and the review
flow returns the freshly created session's id. -/
theorem session_recovery_spec_witness :
    getSession 0 none "sid" = Except.error SessionError.storeUnavailable ∧
    (processCodeReview (fun _ => "reply") "fresh-id" 0 none "sid" "hello" none none).1.sessionId
      = "fresh-id" :=
  ⟨session_recovery_spec.1 0 "sid",
   session_recovery_spec.2.2.1 (fun _ => "reply") "fresh-id" 0 none "sid" "hello" none none
     SessionError.storeUnavailable rfl⟩

/-- C8: when the sanitized input is classified as conversation the turn's
severity is the constant `info` whatever the model returns, and on the code
branch the severity is exactly `extractSeverity` of the sanitized review. -/
theorem chat_branch_severity_spec (ai : List ChatMessage → String) (uuid : String)
    (now : Int) (kv : Option KVStore) (sid code : String)
    (lang ctx : Option String) :
    (isCode (sanitizeCode code) = false →
      (processCodeReview ai uuid now kv sid code lang ctx).1.severity = Severity.info) ∧
    (isCode (sanitizeCode code) = true →
      (processCodeReview ai uuid now kv sid code lang ctx).1.severity =
        extractSeverity ((processCodeReview ai uuid now kv sid code lang ctx).1.review).data) := by
  constructor <;> intro h <;> simp [processCodeReview, h]

/-- C8 witness: a greeting is not code, so the chat branch reports `info`. -/
theorem chat_branch_severity_spec_witness :
    isCode (sanitizeCode "hello") = false ∧
    (processCodeReview (fun _ => "sure, happy to help") "u" 0 none "s" "hello"
      none none).1.severity = Severity.info :=
  ⟨by decide,
   (chat_branch_severity_spec (fun _ => "sure, happy to help") "u" 0 none "s" "hello"
     none none).1 (by decide)⟩

/-- C5: both message-appending operations cap the history at 10, keep a
suffix of the appended history (most recent messages, original order), and
`addMessage` / `processCodeReview` persist exactly that truncation. -/
theorem session_truncation_spec :
    (∀ (msgs : List ChatMessage) (m : ChatMessage),
      (truncate10 (msgs ++ [m])).length = min (msgs.length + 1) 10 ∧
      truncate10 (msgs ++ [m]) = (msgs ++ [m]).drop (msgs.length + 1 - 10)) ∧
    (∀ (msgs : List ChatMessage) (u a : ChatMessage),
      (truncate10 (msgs ++ [u, a])).length = min (msgs.length + 2) 10 ∧
      truncate10 (msgs ++ [u, a]) = (msgs ++ [u, a]).drop (msgs.length + 2 - 10)) ∧
    (∀ l : List ChatMessage, truncate10 l <:+ l ∧ (truncate10 l).length ≤ 10) ∧
    (∀ (uuid : String) (now : Int) (st : KVStore) (sid : String) (role : Role)
       (content : String) (s : ChatSession),
      getSession now (some st) sid = Except.ok s →
      (addMessage uuid now (some st) sid role content).1.messages =
        truncate10 (s.messages ++ [⟨role, content⟩])) ∧
    (∀ (ai : List ChatMessage → String) (uuid : String) (now : Int) (st : KVStore)
       (sid code : String) (lang ctx : Option String) (s : ChatSession),
      getSession now (some st) sid = Except.ok s →
      ∃ u a : ChatMessage, u.role = Role.user ∧ a.role = Role.assistant ∧
        (processCodeReview ai uuid now (some st) sid code lang ctx).2.1 =
          some (kvPut st ("session:" ++ s.id)
            { s with messages := truncate10 (s.messages ++ [u, a]), updated_at := now }
            (now + sessionTTLms))) := by
  have hdrop : ∀ (l : List ChatMessage) (k : Nat), truncate10 l = l.drop (l.length - 10) →
      l.length - 10 = k → truncate10 l = l.drop k := by
    intro l k h1 h2; rw [h1, h2]
  refine ⟨?_, ?_, ?_, ?_, ?_⟩
  · intro msgs m
    have hl : (msgs ++ [m]).length = msgs.length + 1 := by simp
    constructor
    · simp only [truncate10, hl]
      by_cases h : msgs.length + 1 > 10
      · rw [if_pos h, List.length_drop, hl]
        omega
      · rw [if_neg h, hl]
        omega
    · simp only [truncate10, hl]
      by_cases h : msgs.length + 1 > 10
      · rw [if_pos h]
      · rw [if_neg h]
        have h0 : msgs.length + 1 - 10 = 0 := by omega
        rw [h0, List.drop_zero]
  · intro msgs u a
    have hl : (msgs ++ [u, a]).length = msgs.length + 2 := by simp
    constructor
    · simp only [truncate10, hl]
      by_cases h : msgs.length + 2 > 10
      · rw [if_pos h, List.length_drop, hl]
        omega
      · rw [if_neg h, hl]
        omega
    · simp only [truncate10, hl]
      by_cases h : msgs.length + 2 > 10
      · rw [if_pos h]
      · rw [if_neg h]
        have h0 : msgs.length + 2 - 10 = 0 := by omega
        rw [h0, List.drop_zero]
  · intro l
    constructor
    · by_cases h : l.length > 10
      · simp [truncate10, h]
        exact List.drop_suffix _ _
      · simp [truncate10, h]
    · by_cases h : l.length > 10
      · simp [truncate10, h]
        omega
      · simp [truncate10, h]
        omega
  · intro uuid now st sid role content s h
    simp [addMessage, h, updateSession]
  · intro ai uuid now st sid code lang ctx s h
    refine ⟨⟨Role.user, ?_⟩, ⟨Role.assistant, ?_⟩, rfl, rfl, ?_⟩
    · exact (if isCode (sanitizeCode code) then
        buildUserPrompt (sanitizeCode code) ctx else buildChatUserPrompt (sanitizeCode code))
    · exact (if isCode (sanitizeCode code) then
        sanitizeResponse (ai (reviewMessages (buildSystemPrompt lang)
          (s.messages.filter (fun m => !(m.role == Role.system)))
          (buildUserPrompt (sanitizeCode code) ctx)))
      else
        sanitizeResponse (ai (reviewMessages chatSystemPromptText
          (s.messages.filter (fun m => !(m.role == Role.system)))
          (buildChatUserPrompt (sanitizeCode code)))))
    · by_cases hc : isCode (sanitizeCode code) <;>
        simp [processCodeReview, h, updateSession, hc]

/-- C5 witness: appending an 11th message to a 10-message history leaves
exactly 10 messages, dropping the oldest. -/
theorem session_truncation_spec_witness :
    (truncate10 (List.replicate 10 (⟨Role.user, "m"⟩ : ChatMessage) ++
      ([⟨Role.user, "new"⟩] : List ChatMessage))).length = 10 ∧
    truncate10 (List.replicate 10 (⟨Role.user, "m"⟩ : ChatMessage) ++
      ([⟨Role.user, "new"⟩] : List ChatMessage)) =
      (List.replicate 10 (⟨Role.user, "m"⟩ : ChatMessage) ++
        ([⟨Role.user, "new"⟩] : List ChatMessage)).drop 1 := by
  have h := session_truncation_spec.1 (List.replicate 10 (⟨Role.user, "m"⟩ : ChatMessage))
    ⟨Role.user, "new"⟩
  constructor
  · simpa using h.1
  · simpa using h.2

/-- C7: the review handler raises a `ValidationError` exactly when the `code`
field is missing, not a string, empty after trimming, or longer than the
configured maximum; on a validation failure the KV state is returned untouched
and no completion call is made. -/
theorem review_validation_spec (maxLen : Int) (body : ReviewRequest)
    (ai : List ChatMessage → String) (uuidR uuidS : String) (now : Int)
    (kv : Option KVStore) :
    ((∃ e, validateReviewBody maxLen body.code = Except.error e) ↔
      body.code = CodeField.absent ∨ body.code = CodeField.notString ∨
      (∃ s, body.code = CodeField.str s ∧
        (trimL s.data = [] ∨ (s.length : Int) > maxLen))) ∧
    (∀ e, validateReviewBody maxLen body.code = Except.error e →
      handleReview ai uuidR uuidS now kv maxLen body = (Except.error e, kv, 0)) := by
  constructor
  · cases hc : body.code with
    | absent => simp [validateReviewBody]
    | notString => simp [validateReviewBody]
    | str s =>
      simp only [validateReviewBody]
      by_cases h1 : s = ""
      · subst h1
        simp [trimL]
      · rw [if_neg h1]
        by_cases h2 : (s.length : Int) > maxLen
        · rw [if_pos h2]
          simp [h2]
        · rw [if_neg h2]
          by_cases h3 : trimL s.data = []
          · rw [if_pos (by simp [List.isEmpty_iff, h3])]
            simp [h3]
          · rw [if_neg (by simp [List.isEmpty_iff, h3])]
            simp [h3, h2]
  · intro e h
    simp [handleReview, h]

/-- C7 witness: whitespace-only code fails validation with no store change and
no completion call. -/
theorem review_validation_spec_witness :
    validateReviewBody 100 (CodeField.str "   ") = Except.error ValidationError.emptyCode ∧
    handleReview (fun _ => "r") "u1" "u2" 0 none 100
      { session_id := none, code := CodeField.str "   ", language := none, context := none } =
      (Except.error ValidationError.emptyCode, none, 0) :=
  ⟨rfl,
   (review_validation_spec 100
     { session_id := none, code := CodeField.str "   ", language := none, context := none }
     (fun _ => "r") "u1" "u2" 0 none).2 ValidationError.emptyCode rfl⟩

/-- Evaluating `Char.ofNat` at a valid code point. -/
theorem toNat_ofNat_valid (n : Nat) (h : n.isValidChar) : (Char.ofNat n).toNat = n := by
  simp [Char.ofNat, h, Char.toNat, Char.ofNatAux]
  have hlt : n < 2 ^ 32 := by
    rcases h with h1 | h1 <;> omega
  simp [UInt32.toNat, UInt32.ofNat', Nat.mod_eq_of_lt hlt]

/-- `asciiLower` can only produce a character outside `a`–`z` by fixing it. -/
theorem asciiLower_fix {c : Char} (hc : ¬(97 ≤ c.toNat ∧ c.toNat ≤ 122)) {x : Char}
    (h : asciiLower x = c) : x = c := by
  unfold asciiLower at h
  split at h
  · exfalso
    rename_i hup
    obtain ⟨h1, h2⟩ := hup
    have hb1 : 65 ≤ x.toNat := by
      have := Char.le_def.mp h1
      simpa using this
    have hb2 : x.toNat ≤ 90 := by
      have := Char.le_def.mp h2
      simpa using this
    have hv : (x.toNat + 32).isValidChar := by
      left
      omega
    have hn := congrArg Char.toNat h
    rw [toNat_ofNat_valid _ hv] at hn
    omega
  · exact h

/-- Case-insensitive comparison with `<` holds only for `<` itself. -/
theorem swCI_lt_false (t : List Char) (x : Char) (s : List Char) (hx : x ≠ '<') :
    startsWithCI ('<' :: t) (x :: s) = false := by
  simp only [startsWithCI, Bool.and_eq_false_iff]
  left
  have h1 : asciiLower '<' = '<' := by decide
  rw [h1]
  simp only [beq_eq_false_iff_ne, ne_eq]
  intro h
  exact hx (asciiLower_fix (by decide) h.symm)

/-- A mismatch inside the prefix `q` blocks a case-insensitive match for any
continuation. -/
theorem misCI_extend (p : List Char) :
    ∀ q ys, misCI p q = true → startsWithCI p (q ++ ys) = false := by
  induction p with
  | nil =>
    intro q ys h
    cases q <;> simp [misCI] at h
  | cons a p ih =>
    intro q ys h
    cases q with
    | nil => simp [misCI] at h
    | cons b q2 =>
      simp only [misCI, Bool.or_eq_true, bne_iff_ne, ne_eq] at h
      rcases h with h | h
      · simp [startsWithCI, h]
      · simp [startsWithCI, ih q2 ys h]

/-- A full pattern match inside the prefix `q` matches for any continuation. -/
theorem hitCI_extend (p : List Char) :
    ∀ q ys, hitCI p q = true → startsWithCI p (q ++ ys) = true := by
  induction p with
  | nil => intro q ys _; simp [startsWithCI]
  | cons a p ih =>
    intro q ys h
    cases q with
    | nil => simp [hitCI] at h
    | cons b q2 =>
      simp only [hitCI, Bool.and_eq_true] at h
      simp [startsWithCI, h.1, ih q2 ys h.2]

/-- `gsub` is the identity when the matcher fails at every scan position. -/
theorem gsub_id_of_none (m : List Char → Option (List Char × List Char)) :
    ∀ (fuel : Nat) (s : List Char),
      (∀ t, t <:+ s → t ≠ [] → m t = none) → gsub m fuel s = s := by
  intro fuel
  induction fuel with
  | zero => intro s _; cases s <;> rfl
  | succ f ih =>
    intro s h
    cases s with
    | nil => rfl
    | cons a r =>
      have h0 : m (a :: r) = none := h (a :: r) (List.suffix_refl _) (by simp)
      simp only [gsub, h0]
      rw [ih r]
      intro t ht hne
      exact h t (ht.trans (List.suffix_cons a r)) hne

/-- Decompose a suffix of an append. -/
theorem suffix_append_cases {α : Type} (t xs ys : List α) (h : t <:+ xs ++ ys) :
    t <:+ ys ∨ ∃ t2, t2 <:+ xs ∧ t2 ≠ [] ∧ t = t2 ++ ys := by
  induction xs with
  | nil => left; simpa using h
  | cons x xs ih =>
    rw [List.cons_append, List.suffix_cons_iff] at h
    rcases h with h | h
    · right
      exact ⟨x :: xs, List.suffix_refl _, by simp, by simpa using h⟩
    · rcases ih h with h2 | ⟨t2, ht2, hne, rfl⟩
      · left; exact h2
      · right
        exact ⟨t2, ht2.trans (List.suffix_cons x xs), hne, rfl⟩

/-- `gsub` walks unchanged through a block of characters at whose positions
the matcher fails by the head character alone. -/
theorem gsub_skip_headpred (m : List Char → Option (List Char × List Char))
    (P : Char → Prop) (hm : ∀ x s, P x → m (x :: s) = none) :
    ∀ (xs : List Char) (fuel : Nat) (ys : List Char),
      xs.length ≤ fuel → (∀ x ∈ xs, P x) →
      gsub m fuel (xs ++ ys) = xs ++ gsub m (fuel - xs.length) ys := by
  intro xs
  induction xs with
  | nil => intro fuel ys _ _; simp
  | cons x xs ih =>
    intro fuel ys hlen hP
    cases fuel with
    | zero => simp at hlen
    | succ f =>
      have h0 : m (x :: (xs ++ ys)) = none := hm _ _ (hP x (by simp))
      simp only [List.cons_append, gsub, List.append_eq, h0]
      rw [ih f ys (by simpa using hlen) (fun y hy => hP y (by simp [hy]))]
      simp [List.length_cons, Nat.succ_sub_succ]

/-- A pattern starting with `<` cannot start matching at a non-`<` character. -/
theorem swCI_head_lt_false (p : List Char) (hp : p.head? = some '<') (x : Char)
    (s : List Char) (hx : x ≠ '<') : startsWithCI p (x :: s) = false := by
  cases p with
  | nil => simp at hp
  | cons a t =>
    simp only [List.head?_cons, Option.some_inj] at hp
    subst hp
    exact swCI_lt_false t x s hx

/-- Assemble absence of a pattern over an append whose left part blocks every
match inside itself. -/
theorem hasSubCI_append_fin (p : List Char) :
    ∀ (xs ys : List Char),
      (∀ k : Fin xs.length, misCI p (xs.drop k.val) = true) →
      hasSubCI p ys = false → hasSubCI p (xs ++ ys) = false := by
  intro xs
  induction xs with
  | nil => intro ys _ hys; simpa using hys
  | cons x xs ih =>
    intro ys hxs hys
    have h0 : misCI p (x :: xs) = true := by
      have := hxs ⟨0, by simp⟩
      simpa using this
    have h1 : startsWithCI p ((x :: xs) ++ ys) = false := misCI_extend p (x :: xs) ys h0
    simp only [List.cons_append] at h1
    simp only [List.cons_append, hasSubCI, List.append_eq, h1, Bool.false_or]
    refine ih ys (fun k => ?_) hys
    have := hxs ⟨k.val + 1, by simp only [List.length_cons]; omega⟩
    simpa using this

/-- Absence of a `<`-headed pattern across a block without `<`. -/
theorem hasSubCI_skip_lt (p : List Char) (hp : p.head? = some '<') :
    ∀ (E ys : List Char), '<' ∉ E → hasSubCI p ys = false →
      hasSubCI p (E ++ ys) = false := by
  intro E
  induction E with
  | nil => intro ys _ hys; simpa using hys
  | cons x E ih =>
    intro ys hE hys
    have hx : x ≠ '<' := by
      intro h
      exact hE (by simp [h])
    simp only [List.cons_append, hasSubCI, List.append_eq,
      swCI_head_lt_false p hp x (E ++ ys) hx, Bool.false_or]
    exact ih ys (fun h => hE (by simp [h])) hys

/-- The strip pass is the identity when its opening tag never occurs. -/
theorem gsub_strip_id (openT closeT repl : List Char) :
    ∀ (fuel : Nat) (s : List Char), hasSubCI openT s = false →
      gsub (matchStripAt openT closeT repl) fuel s = s := by
  intro fuel
  induction fuel with
  | zero => intro s _; cases s <;> rfl
  | succ f ih =>
    intro s h
    cases s with
    | nil => rfl
    | cons a r =>
      simp only [hasSubCI, Bool.or_eq_false_iff] at h
      simp only [gsub, matchStripAt, h.1, Bool.false_eq_true, if_false]
      rw [ih r h.2]

/-- Skipping one non-matching character in the closing-tag search. -/
theorem dropAfterCI_cons_neg (p : List Char) (x : Char) (rest : List Char)
    (h : startsWithCI p (x :: rest) = false) :
    dropAfterCI p (x :: rest) = dropAfterCI p rest := by
  simp [dropAfterCI, h]

/-- The closing-tag search walks through a block without `<`. -/
theorem dropAfterCI_skip_lt (p : List Char) (hp : p.head? = some '<') :
    ∀ (E ys : List Char), '<' ∉ E →
      dropAfterCI p (E ++ ys) = dropAfterCI p ys := by
  intro E
  induction E with
  | nil => intro ys _; simp
  | cons x E ih =>
    intro ys hE
    have hx : x ≠ '<' := by
      intro h
      exact hE (by simp [h])
    rw [List.cons_append, dropAfterCI_cons_neg p x (E ++ ys)
      (swCI_head_lt_false p hp x (E ++ ys) hx)]
    exact ih ys (fun h => hE (by simp [h]))

/-- The closing-tag search succeeds exactly at a full occurrence. -/
theorem dropAfterCI_hit (p q ys : List Char) (h : hitCI p q = true)
    (hq : q.length = p.length) (hqne : q ≠ []) :
    dropAfterCI p (q ++ ys) = some ys := by
  cases q with
  | nil => simp at hqne
  | cons a r =>
    have hs := hitCI_extend p (a :: r) ys h
    simp only [List.cons_append] at hs
    simp only [List.cons_append, dropAfterCI, List.append_eq, hs, if_true]
    have h2 : p.length = (a :: r).length := hq.symm
    rw [show (a :: (r ++ ys)) = (a :: r) ++ ys from rfl, h2, List.drop_left]

/-- A `<`-headed pattern never occurs in a string without `<`. -/
theorem hasSubCI_of_no_lt (p : List Char) (hp : p.head? = some '<') (s : List Char)
    (hs : '<' ∉ s) : hasSubCI p s = false := by
  have hnil : hasSubCI p [] = false := by
    cases p with
    | nil => simp at hp
    | cons a t => simp [hasSubCI]
  have := hasSubCI_skip_lt p hp s [] hs hnil
  simpa using this

/-- A strip matcher fails at any non-`<` head character. -/
theorem matchStrip_none_of_head (ot ct rp : List Char) (hot : ot.head? = some '<')
    (x : Char) (s : List Char) (hx : x ≠ '<') :
    matchStripAt ot ct rp (x :: s) = none := by
  simp [matchStripAt, swCI_head_lt_false ot hot x s hx]

/-- Computing a strip matcher at the head of a well-formed tag block. -/
theorem matchStrip_block (ot ct rp : List Char) (q body b : List Char)
    (hhit : hitCI ot q = true) (hql : ot.length + 1 = q.length)
    (hqd : q.drop ot.length = ['>'])
    (hct : ct.head? = some '<') (hbody : '<' ∉ body)
    (hhit2 : hitCI ct ct = true) (hctne : ct ≠ []) :
    matchStripAt ot ct rp (q ++ (body ++ (ct ++ b))) = some (rp, b) := by
  have hsw : startsWithCI ot (q ++ (body ++ (ct ++ b))) = true :=
    hitCI_extend _ _ _ hhit
  have hdrop : (q ++ (body ++ (ct ++ b))).drop ot.length =
      '>' :: (body ++ (ct ++ b)) := by
    rw [List.drop_append_of_le_length (by omega), hqd]
    simp
  have h1 : dropAfterCI ct ('>' :: (body ++ (ct ++ b))) = some b := by
    rw [show ('>' :: (body ++ (ct ++ b))) = (('>' :: body) ++ (ct ++ b)) from rfl]
    rw [dropAfterCI_skip_lt ct hct ('>' :: body) (ct ++ b)
      (by
        intro hmem
        rcases List.mem_cons.mp hmem with h | h
        · exact absurd h.symm (by decide)
        · exact hbody h)]
    exact dropAfterCI_hit ct ct b hhit2 rfl hctne
  simp only [matchStripAt, hsw, if_true, hdrop, h1]
  have hw : isWordChar '>' = false := by decide
  simp [hw]

/-- Running a strip pass over `a ++ X` where `a` has no `<` and `X` is one
matched block leaving `b`: the block is replaced, everything else is kept. -/
theorem gsubAll_strip_chunk (ot ct rp : List Char) (hot : ot.head? = some '<')
    (a X b : List Char) (ha : '<' ∉ a) (hb : '<' ∉ b)
    (hX : matchStripAt ot ct rp X = some (rp, b))
    (x0 : Char) (X' : List Char) (hX0 : X = x0 :: X')
    (hlen : b.length ≤ X'.length) :
    gsubAll (matchStripAt ot ct rp) (a ++ X) = a ++ (rp ++ b) := by
  have hskip := gsub_skip_headpred (matchStripAt ot ct rp) (fun x => x ≠ '<')
    (fun x s hx => matchStrip_none_of_head ot ct rp hot x s hx)
  have h1 : gsub (matchStripAt ot ct rp) ((a ++ X).length) (a ++ X) =
      a ++ gsub (matchStripAt ot ct rp) ((a ++ X).length - a.length) X := by
    refine hskip a ((a ++ X).length) X (by simp) (fun x hx => ?_)
    intro h
    exact ha (h ▸ hx)
  have h2 : (a ++ X).length - a.length = X.length := by
    simp
  have h3 : gsub (matchStripAt ot ct rp) X.length X =
      rp ++ gsub (matchStripAt ot ct rp) X'.length b := by
    subst hX0
    simp only [List.length_cons, gsub, hX]
  have h4 : gsub (matchStripAt ot ct rp) X'.length b = b := by
    have := hskip b X'.length [] hlen (fun x hx => fun h => hb (h ▸ hx))
    simp only [List.append_nil] at this
    rw [this]
    simp [gsub]
  rw [gsubAll, h1, h2, h3, h4]

/-- C9: `sanitizeCode` replaces a script block (and likewise an iframe block)
with its removal marker, trims, and leaves the surrounding text untouched. -/
theorem sanitizeCode_spec (a body b : List Char)
    (ha : '<' ∉ a) (hbody : '<' ∉ body) (hb : '<' ∉ b) :
    sanitizeCodeL (a ++ ("<script>".data ++ (body ++ ("</script>".data ++ b)))) =
      trimL (a ++ (removedScript ++ b)) ∧
    sanitizeCodeL (a ++ ("<iframe>".data ++ (body ++ ("</iframe>".data ++ b)))) =
      trimL (a ++ (removedIframe ++ b)) := by
  constructor
  · have hblock : matchStripAt "<script".data "</script>".data removedScript
        ("<script>".data ++ (body ++ ("</script>".data ++ b))) =
        some (removedScript, b) :=
      matchStrip_block _ _ _ _ body b (by decide) (by decide) (by decide) (by decide)
        hbody (by decide) (by decide)
    have hrun : gsubAll (matchStripAt "<script".data "</script>".data removedScript)
        (a ++ ("<script>".data ++ (body ++ ("</script>".data ++ b)))) =
        a ++ (removedScript ++ b) := by
      refine gsubAll_strip_chunk _ _ _ (by decide) a _ b ha hb hblock '<'
        ("script>".data ++ (body ++ ("</script>".data ++ b))) rfl ?_
      simp
      omega
    have hnone : '<' ∉ a ++ (removedScript ++ b) := by
      intro hmem
      rcases List.mem_append.mp hmem with h | h
      · exact ha h
      · rcases List.mem_append.mp h with h | h
        · exact absurd h (by decide)
        · exact hb h
    have hifr : gsubAll (matchStripAt "<iframe".data "</iframe>".data removedIframe)
        (a ++ (removedScript ++ b)) = a ++ (removedScript ++ b) :=
      gsub_strip_id _ _ _ _ _
        (hasSubCI_of_no_lt "<iframe".data (by decide) _ hnone)
    simp only [sanitizeCodeL, hrun, hifr]
  · have hsubnone : hasSubCI "<script".data
        (a ++ ("<iframe>".data ++ (body ++ ("</iframe>".data ++ b)))) = false := by
      refine hasSubCI_skip_lt "<script".data (by decide) a _ ha ?_
      refine hasSubCI_append_fin "<script".data "<iframe>".data _ (by decide) ?_
      refine hasSubCI_skip_lt "<script".data (by decide) body _ hbody ?_
      refine hasSubCI_append_fin "<script".data "</iframe>".data _ (by decide) ?_
      exact hasSubCI_of_no_lt "<script".data (by decide) b hb
    have hid : gsubAll (matchStripAt "<script".data "</script>".data removedScript)
        (a ++ ("<iframe>".data ++ (body ++ ("</iframe>".data ++ b)))) =
        a ++ ("<iframe>".data ++ (body ++ ("</iframe>".data ++ b))) :=
      gsub_strip_id _ _ _ _ _ hsubnone
    have hblock : matchStripAt "<iframe".data "</iframe>".data removedIframe
        ("<iframe>".data ++ (body ++ ("</iframe>".data ++ b))) =
        some (removedIframe, b) :=
      matchStrip_block _ _ _ _ body b (by decide) (by decide) (by decide) (by decide)
        hbody (by decide) (by decide)
    have hrun : gsubAll (matchStripAt "<iframe".data "</iframe>".data removedIframe)
        (a ++ ("<iframe>".data ++ (body ++ ("</iframe>".data ++ b)))) =
        a ++ (removedIframe ++ b) := by
      refine gsubAll_strip_chunk _ _ _ (by decide) a _ b ha hb hblock '<'
        ("iframe>".data ++ (body ++ ("</iframe>".data ++ b))) rfl ?_
      simp
      omega
    simp only [sanitizeCodeL, hid, hrun]

/-- C9 witness: a concrete script block is removed, keeping surrounding text. -/
theorem sanitizeCode_spec_witness :
    ('<' ∉ "abc ".data ∧ '<' ∉ "evil()".data ∧ '<' ∉ " def".data) ∧
    sanitizeCodeL ("abc ".data ++ ("<script>".data ++ ("evil()".data ++
      ("</script>".data ++ " def".data)))) =
      trimL ("abc ".data ++ (removedScript ++ " def".data)) :=
  ⟨⟨by decide, by decide, by decide⟩,
   (sanitizeCode_spec "abc ".data "evil()".data " def".data
     (by decide) (by decide) (by decide)).1⟩

/-- C4 counterexample: an input whose fenced code block contains `<`, yet the
output contains no `&lt;` at all — the sanitize pass deletes the whole region
(first input), and inline-code content is emitted with its `<` unescaped
(second input). -/
theorem formatReview_counterexample :
    formatReview "<script>\n```\na<b\n```\n</script>" = "" ∧
    hasSub "&lt;".data (formatReviewL "<script>\n```\na<b\n```\n</script>".data) = false ∧
    formatReview "`a<b`" = "<code>a<b</code>" ∧
    hasSub "&lt;".data (formatReviewL "`a<b`".data) = false := by
  refine ⟨by decide, by decide, by decide, by decide⟩

/-- A pattern matches at the head of itself plus anything. -/
theorem startsWithL_append_self (p : List Char) :
    ∀ t, startsWithL p (p ++ t) = true := by
  induction p with
  | nil => intro t; simp [startsWithL]
  | cons a p ih => intro t; simp [startsWithL, ih]

/-- Mismatching head characters block a case-sensitive match. -/
theorem swL_char_false (a x : Char) (pt s : List Char) (h : a ≠ x) :
    startsWithL (a :: pt) (x :: s) = false := by
  simp only [startsWithL, Bool.and_eq_false_iff]
  left
  exact beq_eq_false_iff_ne.mpr h

/-- The fence search finds the closing fence right after a fence-free body. -/
theorem splitFence_exact (c : List Char) (h : btick ∉ c) :
    splitFence (c ++ fenceOpen) = some (c, []) := by
  induction c with
  | nil => decide
  | cons x c ih =>
    have hx : x ≠ btick := by
      intro hh
      exact h (by simp [hh])
    have hsw : startsWithL fenceOpen (x :: (c ++ fenceOpen)) = false := by
      rw [show fenceOpen = btick :: [btick, btick] from rfl]
      exact swL_char_false btick x _ _ (Ne.symm hx)
    simp only [List.cons_append, splitFence, List.append_eq, hsw,
      Bool.false_eq_true, if_false]
    rw [ih (fun hm => h (by simp [hm]))]

/-- A single full-string match makes the global replacement one replacement. -/
theorem gsub_single_full (m : List Char → Option (List Char × List Char))
    (x0 : Char) (X' repl : List Char)
    (h : m (x0 :: X') = some (repl, [])) :
    gsubAll m (x0 :: X') = repl := by
  simp only [gsubAll, List.length_cons, gsub, h]
  simp [gsub]

/-- The six possible shapes of `escapeHtml` on one character. -/
theorem escCharL_shape (y : Char) :
    (y = '&' ∧ escCharL y = "&amp;".data) ∨ (y = '<' ∧ escCharL y = "&lt;".data) ∨
    (y = '>' ∧ escCharL y = "&gt;".data) ∨ (y = '"' ∧ escCharL y = "&quot;".data) ∨
    (y = '\'' ∧ escCharL y = "&#039;".data) ∨
    (escCharL y = [y] ∧ y ≠ '&' ∧ y ≠ '<' ∧ y ≠ '>' ∧ y ≠ '"' ∧ y ≠ '\'') := by
  by_cases h1 : y = '&'
  · subst h1; left; exact ⟨rfl, by decide⟩
  · by_cases h2 : y = '<'
    · subst h2; right; left; exact ⟨rfl, by decide⟩
    · by_cases h3 : y = '>'
      · subst h3; right; right; left; exact ⟨rfl, by decide⟩
      · by_cases h4 : y = '"'
        · subst h4; right; right; right; left; exact ⟨rfl, by decide⟩
        · by_cases h5 : y = '\''
          · subst h5; right; right; right; right; left; exact ⟨rfl, by decide⟩
          · right; right; right; right; right
            refine ⟨?_, h1, h2, h3, h4, h5⟩
            simp [escCharL, h1, h2, h3, h4, h5]

/-- Characters of an escaped string: either a kept character of the source
(none of the five escaped ones) or a character of some entity text. -/
theorem escapeHtml_chars (t : List Char) (x : Char) (hx : x ∈ escapeHtmlL t) :
    (x ∈ t ∧ x ≠ '&' ∧ x ≠ '<' ∧ x ≠ '>' ∧ x ≠ '"' ∧ x ≠ '\'') ∨
      x ∈ "&amp;ltgquo#039".data := by
  unfold escapeHtmlL at hx
  obtain ⟨l, hl, hxl⟩ := List.mem_flatten.mp hx
  obtain ⟨y, hy, rfl⟩ := List.mem_map.mp hl
  rcases escCharL_shape y with ⟨hy2, he⟩ | ⟨hy2, he⟩ | ⟨hy2, he⟩ | ⟨hy2, he⟩ |
    ⟨hy2, he⟩ | ⟨he, h1, h2, h3, h4, h5⟩
  · right; rw [he] at hxl
    exact (by decide : ∀ z ∈ "&amp;".data, z ∈ "&amp;ltgquo#039".data) x hxl
  · right; rw [he] at hxl
    exact (by decide : ∀ z ∈ "&lt;".data, z ∈ "&amp;ltgquo#039".data) x hxl
  · right; rw [he] at hxl
    exact (by decide : ∀ z ∈ "&gt;".data, z ∈ "&amp;ltgquo#039".data) x hxl
  · right; rw [he] at hxl
    exact (by decide : ∀ z ∈ "&quot;".data, z ∈ "&amp;ltgquo#039".data) x hxl
  · right; rw [he] at hxl
    exact (by decide : ∀ z ∈ "&#039;".data, z ∈ "&amp;ltgquo#039".data) x hxl
  · left
    rw [he] at hxl
    rcases List.mem_singleton.mp hxl with rfl
    exact ⟨hy, h1, h2, h3, h4, h5⟩

/-- Trimming only removes characters that were in the string. -/
theorem mem_trimL (s : List Char) (x : Char) (hx : x ∈ trimL s) : x ∈ s := by
  unfold trimL at hx
  rw [List.mem_reverse] at hx
  have h1 := (List.dropWhile_sublist (l := (s.dropWhile isSpaceChar).reverse)
    isSpaceChar).subset hx
  rw [List.mem_reverse] at h1
  exact (List.dropWhile_sublist isSpaceChar).subset h1

/-- The fenced-block matcher at the head of a single-fence input. -/
theorem matchFence_at_block (c : List Char) (h : btick ∉ c) :
    matchFenceAt (fenceOpen ++ ('\n' :: (c ++ fenceOpen))) =
      some ("<pre><code class=\"language-text\">".data ++
        (escapeHtmlL (trimL c) ++ "</code></pre>".data), []) := by
  have hsw := startsWithL_append_self fenceOpen ('\n' :: (c ++ fenceOpen))
  have hdrop : (fenceOpen ++ ('\n' :: (c ++ fenceOpen))).drop 3 = '\n' :: (c ++ fenceOpen) := by
    rw [show (3 : Nat) = fenceOpen.length from rfl, List.drop_left]
  have htw : ('\n' :: (c ++ fenceOpen)).takeWhile isWordChar = [] := by
    rw [List.takeWhile_cons]
    simp [(by decide : isWordChar '\n' = false)]
  simp only [matchFenceAt, hsw, if_true, hdrop, htw, List.length_nil, List.drop_zero,
    splitFence_exact c h, codeLangOf, List.isEmpty_nil, if_true]
  simp [List.append_assoc]

/-- The inline-code pass is the identity on backtick-free text. -/
theorem gsub_inline_id : ∀ (fuel : Nat) (s : List Char), btick ∉ s →
    gsub matchInlineAt fuel s = s := by
  intro fuel
  induction fuel with
  | zero => intro s _; cases s <;> rfl
  | succ f ih =>
    intro s h
    cases s with
    | nil => rfl
    | cons a r =>
      have ha : (a == btick) = false :=
        beq_eq_false_iff_ne.mpr (fun hh => h (by simp [hh]))
      have h0 : matchInlineAt (a :: r) = none := by
        simp [matchInlineAt, ha]
      simp only [gsub, h0]
      rw [ih r (fun hm => h (by simp [hm]))]

/-- The bold pass is the identity on star-free text. -/
theorem gsub_bold_id : ∀ (fuel : Nat) (s : List Char), '*' ∉ s →
    gsub matchBoldAt fuel s = s := by
  intro fuel
  induction fuel with
  | zero => intro s _; cases s <;> rfl
  | succ f ih =>
    intro s h
    cases s with
    | nil => rfl
    | cons a r =>
      have ha : a ≠ '*' := fun hh => h (by simp [hh])
      have hsw : startsWithL "**".data (a :: r) = false := by
        rw [show ("**".data : List Char) = '*' :: ['*'] from rfl]
        exact swL_char_false '*' a _ _ (Ne.symm ha)
      have h0 : matchBoldAt (a :: r) = none := by
        simp [matchBoldAt, hsw]
      simp only [gsub, h0]
      rw [ih r (fun hm => h (by simp [hm]))]

/-- The italic pass is the identity on star-free text. -/
theorem gsub_italic_id : ∀ (fuel : Nat) (s : List Char), '*' ∉ s →
    gsub matchItalicAt fuel s = s := by
  intro fuel
  induction fuel with
  | zero => intro s _; cases s <;> rfl
  | succ f ih =>
    intro s h
    cases s with
    | nil => rfl
    | cons a r =>
      have ha : a ≠ '*' := fun hh => h (by simp [hh])
      have hsw : startsWithL "*".data (a :: r) = false := by
        rw [show ("*".data : List Char) = '*' :: [] from rfl]
        exact swL_char_false '*' a _ _ (Ne.symm ha)
      have h0 : matchItalicAt (a :: r) = none := by
        simp [matchItalicAt, hsw]
      simp only [gsub, h0]
      rw [ih r (fun hm => h (by simp [hm]))]

/-- The inline-event matcher needs a double quote somewhere. -/
theorem matchOnAttr_none_no_quote (s : List Char) (h : '"' ∉ s) :
    matchOnAttrAt s = none := by
  unfold matchOnAttrAt
  by_cases h1 : startsWithCI "on".data s = true
  · rw [if_pos h1]
    by_cases h2 : ((s.drop 2).takeWhile isWordChar).isEmpty = true
    · rw [if_pos h2]
    · rw [if_neg h2]
      split
      · rename_i r2 heq
        exfalso
        apply h
        have hsub : (s.drop 2).drop ((s.drop 2).takeWhile isWordChar).length ⊆ s :=
          (List.drop_subset _ _).trans (List.drop_subset _ _)
        apply hsub
        rw [heq]
        simp
      · rfl
  · rw [if_neg h1]

/-- The inline-event matcher fails when `on` does not match at the head. -/
theorem matchOnAttr_none_of_sw (s : List Char)
    (h : startsWithCI "on".data s = false) : matchOnAttrAt s = none := by
  simp [matchOnAttrAt, h]

/-- Trimming text with non-whitespace first and last characters is the
identity. -/
theorem trimL_no_ws (x : Char) (mid : List Char) (y : Char)
    (hx : isSpaceChar x = false) (hy : isSpaceChar y = false) :
    trimL (x :: (mid ++ [y])) = x :: (mid ++ [y]) := by
  unfold trimL
  rw [List.dropWhile_cons]
  simp only [hx, Bool.false_eq_true, if_false]
  rw [show (x :: (mid ++ [y])).reverse = y :: (mid.reverse ++ [x]) by simp]
  rw [List.dropWhile_cons]
  simp only [hy, Bool.false_eq_true, if_false]
  simp

/-- A substring that literally appears after some prefix is found. -/
theorem hasSub_append_left (pre p rest : List Char) :
    hasSub p (pre ++ (p ++ rest)) = true := by
  induction pre with
  | nil =>
    simp only [List.nil_append]
    cases p with
    | nil => cases rest <;> simp [hasSub, startsWithL]
    | cons q qs =>
      have hq := startsWithL_append_self (q :: qs) rest
      simp only [List.cons_append] at hq
      simp [hasSub, hq]
  | cons z pre ih => simp [hasSub, ih]

/-- Characters of the escaped trimmed content, given fence- and star-free
input: never a markup-significant character nor a rewrite trigger. -/
theorem escapeHtml_trim_chars (c : List Char) (hbt : btick ∉ c) (hst : '*' ∉ c) :
    ∀ x ∈ escapeHtmlL (trimL c),
      x ≠ '<' ∧ x ≠ '>' ∧ x ≠ '"' ∧ x ≠ '\'' ∧ x ≠ btick ∧ x ≠ '*' := by
  intro x hx
  rcases escapeHtml_chars (trimL c) x hx with ⟨hmem, _h1, h2, h3, h4, h5⟩ | hent
  · exact ⟨h2, h3, h4, h5,
      fun hh => hbt (mem_trimL _ _ (hh ▸ hmem)),
      fun hh => hst (mem_trimL _ _ (hh ▸ hmem))⟩
  · exact (by decide : ∀ z ∈ "&amp;ltgquo#039".data,
      z ≠ '<' ∧ z ≠ '>' ∧ z ≠ '"' ∧ z ≠ '\'' ∧ z ≠ btick ∧ z ≠ '*') x hent

/-- The whole `formatReview` pipeline on a single-fenced-block input with
fence- and star-free content: one escaped `pre`/`code` wrapper. -/
theorem formatReview_fenced_core (c : List Char) (hbt : btick ∉ c) (hst : '*' ∉ c) :
    formatReviewL (fenceOpen ++ ('\n' :: (c ++ fenceOpen))) =
      "<pre><code class=\"language-text\">".data ++
        (escapeHtmlL (trimL c) ++ "</code></pre>".data) := by
  have hEmem := escapeHtml_trim_chars c hbt hst
  have hnobt : btick ∉ "<pre><code class=\"language-text\">".data ++
      (escapeHtmlL (trimL c) ++ "</code></pre>".data) := by
    intro hmem
    rcases List.mem_append.mp hmem with h | h
    · exact absurd h (by decide)
    · rcases List.mem_append.mp h with h | h
      · exact (hEmem _ h).2.2.2.2.1 rfl
      · exact absurd h (by decide)
  have hnost : '*' ∉ "<pre><code class=\"language-text\">".data ++
      (escapeHtmlL (trimL c) ++ "</code></pre>".data) := by
    intro hmem
    rcases List.mem_append.mp hmem with h | h
    · exact absurd h (by decide)
    · rcases List.mem_append.mp h with h | h
      · exact (hEmem _ h).2.2.2.2.2 rfl
      · exact absurd h (by decide)
  have hEnolt : '<' ∉ escapeHtmlL (trimL c) := fun h => (hEmem _ h).1 rfl
  have step1 : gsubAll matchFenceAt (fenceOpen ++ ('\n' :: (c ++ fenceOpen))) =
      "<pre><code class=\"language-text\">".data ++
        (escapeHtmlL (trimL c) ++ "</code></pre>".data) :=
    gsub_single_full matchFenceAt btick (btick :: btick :: ('\n' :: (c ++ fenceOpen))) _
      (matchFence_at_block c hbt)
  have step2 : gsubAll matchInlineAt ("<pre><code class=\"language-text\">".data ++
      (escapeHtmlL (trimL c) ++ "</code></pre>".data)) =
      "<pre><code class=\"language-text\">".data ++
        (escapeHtmlL (trimL c) ++ "</code></pre>".data) :=
    gsub_inline_id _ _ hnobt
  have step3 : gsubAll matchBoldAt ("<pre><code class=\"language-text\">".data ++
      (escapeHtmlL (trimL c) ++ "</code></pre>".data)) =
      "<pre><code class=\"language-text\">".data ++
        (escapeHtmlL (trimL c) ++ "</code></pre>".data) :=
    gsub_bold_id _ _ hnost
  have step4 : gsubAll matchItalicAt ("<pre><code class=\"language-text\">".data ++
      (escapeHtmlL (trimL c) ++ "</code></pre>".data)) =
      "<pre><code class=\"language-text\">".data ++
        (escapeHtmlL (trimL c) ++ "</code></pre>".data) :=
    gsub_italic_id _ _ hnost
  have hscr : hasSubCI "<script".data ("<pre><code class=\"language-text\">".data ++
      (escapeHtmlL (trimL c) ++ "</code></pre>".data)) = false := by
    refine hasSubCI_append_fin _ _ _ (by decide) ?_
    refine hasSubCI_skip_lt _ (by decide) _ _ hEnolt ?_
    decide
  have hifr : hasSubCI "<iframe".data ("<pre><code class=\"language-text\">".data ++
      (escapeHtmlL (trimL c) ++ "</code></pre>".data)) = false := by
    refine hasSubCI_append_fin _ _ _ (by decide) ?_
    refine hasSubCI_skip_lt _ (by decide) _ _ hEnolt ?_
    decide
  have step5 : gsubAll (matchStripAt "<script".data "</script>".data [])
      ("<pre><code class=\"language-text\">".data ++
        (escapeHtmlL (trimL c) ++ "</code></pre>".data)) =
      "<pre><code class=\"language-text\">".data ++
        (escapeHtmlL (trimL c) ++ "</code></pre>".data) :=
    gsub_strip_id _ _ _ _ _ hscr
  have step6 : gsubAll (matchStripAt "<iframe".data "</iframe>".data [])
      ("<pre><code class=\"language-text\">".data ++
        (escapeHtmlL (trimL c) ++ "</code></pre>".data)) =
      "<pre><code class=\"language-text\">".data ++
        (escapeHtmlL (trimL c) ++ "</code></pre>".data) :=
    gsub_strip_id _ _ _ _ _ hifr
  have step7 : gsubAll matchOnAttrAt ("<pre><code class=\"language-text\">".data ++
      (escapeHtmlL (trimL c) ++ "</code></pre>".data)) =
      "<pre><code class=\"language-text\">".data ++
        (escapeHtmlL (trimL c) ++ "</code></pre>".data) := by
    refine gsub_id_of_none matchOnAttrAt _ _ ?_
    intro t ht hne
    rcases suffix_append_cases t "<pre><code class=\"language-text\">".data
      (escapeHtmlL (trimL c) ++ "</code></pre>".data) ht with hcase | ⟨t2, ht2, hne2, rfl⟩
    · refine matchOnAttr_none_no_quote t ?_
      intro hqm
      rcases List.mem_append.mp (hcase.subset hqm) with h | h
      · exact (hEmem _ h).2.2.1 rfl
      · exact absurd h (by decide)
    · refine matchOnAttr_none_of_sw _ ?_
      have hlen1 : t2.length ≤ ("<pre><code class=\"language-text\">".data).length :=
        ht2.length_le
      have hlen2 : t2.length ≠ 0 := fun hh => hne2 (List.length_eq_zero.mp hh)
      have hlt : ("<pre><code class=\"language-text\">".data).length - t2.length <
          ("<pre><code class=\"language-text\">".data).length := by
        have h0 : 0 < ("<pre><code class=\"language-text\">".data).length := by decide
        omega
      have ht2eq := List.suffix_iff_eq_drop.mp ht2
      rw [ht2eq]
      exact misCI_extend "on".data _ _
        ((by decide : ∀ k : Fin ("<pre><code class=\"language-text\">".data).length,
          misCI "on".data (("<pre><code class=\"language-text\">".data).drop k.val) = true)
          ⟨("<pre><code class=\"language-text\">".data).length - t2.length, hlt⟩)
  have step8 : trimL ("<pre><code class=\"language-text\">".data ++
      (escapeHtmlL (trimL c) ++ "</code></pre>".data)) =
      "<pre><code class=\"language-text\">".data ++
        (escapeHtmlL (trimL c) ++ "</code></pre>".data) := by
    have hW2 : ("</code></pre>".data : List Char) = "</code></pre".data ++ ['>'] := by decide
    have hsh : "<pre><code class=\"language-text\">".data ++
        (escapeHtmlL (trimL c) ++ "</code></pre>".data) =
        '<' :: (("pre><code class=\"language-text\">".data ++
          (escapeHtmlL (trimL c) ++ "</code></pre".data)) ++ ['>']) := by
      rw [hW2]
      simp [List.append_assoc]
    rw [hsh]
    exact trimL_no_ws '<' _ '>' (by decide) (by decide)
  unfold formatReviewL sanitizeResponseL
  rw [step1, step2, step3, step4, step5, step6, step7, step8]

/-- C4 (amended): `formatReview` escapes the five HTML-significant characters
inside fenced code blocks only; for an input that is exactly one fenced block
whose content has no backtick and no asterisk, the output is the `pre`/`code`
wrapper around `escapeHtml` of the trimmed content, in which every `<`, `>`,
`&` of the content appears as its entity and no escaped character remains. -/
theorem formatReview_fenced_escape (c : List Char) (hbt : btick ∉ c) (hst : '*' ∉ c) :
    formatReviewL (fenceOpen ++ ('\n' :: (c ++ fenceOpen))) =
      "<pre><code class=\"language-text\">".data ++
        (escapeHtmlL (trimL c) ++ "</code></pre>".data) ∧
    ('<' ∈ trimL c →
      hasSub "&lt;".data (formatReviewL (fenceOpen ++ ('\n' :: (c ++ fenceOpen)))) = true) ∧
    ('>' ∈ trimL c →
      hasSub "&gt;".data (formatReviewL (fenceOpen ++ ('\n' :: (c ++ fenceOpen)))) = true) ∧
    ('&' ∈ trimL c →
      hasSub "&amp;".data (formatReviewL (fenceOpen ++ ('\n' :: (c ++ fenceOpen)))) = true) ∧
    (∀ x ∈ escapeHtmlL (trimL c), x ≠ '<' ∧ x ≠ '>' ∧ x ≠ '"' ∧ x ≠ '\'') := by
  have hcore := formatReview_fenced_core c hbt hst
  have hEmem := escapeHtml_trim_chars c hbt hst
  have hfind : ∀ z : Char, z ∈ trimL c →
      hasSub (escCharL z) (formatReviewL (fenceOpen ++ ('\n' :: (c ++ fenceOpen)))) = true := by
    intro z hmem
    rw [hcore]
    obtain ⟨t1, t2, ht⟩ := List.append_of_mem hmem
    have hsplit : escapeHtmlL (trimL c) =
        escapeHtmlL t1 ++ (escCharL z ++ escapeHtmlL t2) := by
      rw [ht]
      simp [escapeHtmlL]
    rw [hsplit]
    have hassoc : "<pre><code class=\"language-text\">".data ++
        ((escapeHtmlL t1 ++ (escCharL z ++ escapeHtmlL t2)) ++ "</code></pre>".data) =
        ("<pre><code class=\"language-text\">".data ++ escapeHtmlL t1) ++
          (escCharL z ++ (escapeHtmlL t2 ++ "</code></pre>".data)) := by
      simp [List.append_assoc]
    rw [hassoc]
    exact hasSub_append_left _ _ _
  refine ⟨hcore, ?_, ?_, ?_,
    fun x hx => ⟨(hEmem x hx).1, (hEmem x hx).2.1, (hEmem x hx).2.2.1, (hEmem x hx).2.2.2.1⟩⟩
  · intro hmem
    have := hfind '<' hmem
    rwa [show escCharL '<' = "&lt;".data from by decide] at this
  · intro hmem
    have := hfind '>' hmem
    rwa [show escCharL '>' = "&gt;".data from by decide] at this
  · intro hmem
    have := hfind '&' hmem
    rwa [show escCharL '&' = "&amp;".data from by decide] at this

/-- C4 witness: the block content `a<b` comes out wrapped and escaped. -/
theorem formatReview_fenced_escape_witness :
    (btick ∉ "a<b".data ∧ '*' ∉ "a<b".data) ∧
    formatReviewL (fenceOpen ++ ('\n' :: ("a<b".data ++ fenceOpen))) =
      "<pre><code class=\"language-text\">".data ++
        (escapeHtmlL (trimL "a<b".data) ++ "</code></pre>".data) ∧
    hasSub "&lt;".data
      (formatReviewL (fenceOpen ++ ('\n' :: ("a<b".data ++ fenceOpen)))) = true :=
  ⟨⟨by decide, by decide⟩,
   (formatReview_fenced_escape "a<b".data (by decide) (by decide)).1,
   (formatReview_fenced_escape "a<b".data (by decide) (by decide)).2.1 (by decide)⟩
